import Mathlib

/-!
Shallow embedding of the Aladin calibre metadata-source plugin
(`__init__.py` and `worker.py`).

Python strings are modelled by `String`; Python `None`-able values by
`Option`; Python exceptions by `Except Unit` (or `Option`); the lxml HTML
tree by the inductive `Html` below.  External leaf functions that are not
part of this repository (calibre's `check_isbn`, Python's `float`,
`datetime.datetime`, `urllib.quote` composed with `.encode('euc-kr')`,
lxml's `fromstring`, calibre's `clean_ascii_chars` and
`identify_results_keygen`) are taken as explicit function parameters, so
every theorem holds for an arbitrary behaviour of those collaborators.
-/

namespace Aladin

/-! ### Python string primitives -/

/-- `listStartsWith hay pat` : does `hay` start with `pat`? -/
def listStartsWith : List Char → List Char → Bool
  | _, [] => true
  | [], _ :: _ => false
  | a :: as, b :: bs => a == b && listStartsWith as bs

/-- Occurrence test on char lists: Python's `pat in s` (for non-empty `pat`). -/
def containsSubList : List Char → List Char → Bool
  | [], pat => pat.isEmpty
  | c :: rest, pat => listStartsWith (c :: rest) pat || containsSubList rest pat

/-- Python's substring test `pat in s`. -/
def containsSub (s pat : String) : Bool :=
  containsSubList s.toList pat.toList

/-- Helper for `pySplitSpace`: accumulates the current token reversed. -/
def splitSpAux : List Char → List Char → List String
  | [], acc => [String.mk acc.reverse]
  | c :: rest, acc =>
      if c == ' ' then String.mk acc.reverse :: splitSpAux rest []
      else splitSpAux rest (c :: acc)

/-- Python's `s.split(' ')`: split on every single space, keeping empties. -/
def pySplitSpace (s : String) : List String :=
  splitSpAux s.toList []

/-- Split a char list at the LAST occurrence of a (non-empty) pattern,
returning the pieces before and after it; `none` when it does not occur. -/
def lastSplitAux (pat : List Char) : List Char → Option (List Char × List Char)
  | [] => none
  | c :: rest =>
      match lastSplitAux pat rest with
      | some (pre, post) => some (c :: pre, post)
      | none =>
          if listStartsWith (c :: rest) pat then
            some ([], (c :: rest).drop pat.length)
          else none

/-- Python's `s.rsplit(pat, 1)` for a non-empty pattern. -/
def rsplit1 (s pat : String) : List String :=
  match lastSplitAux pat.toList s.toList with
  | none => [s]
  | some (pre, post) => [String.mk pre, String.mk post]

/-- The text after the last `'='`: Python's `u.rsplit('=',1)[1]`
(call sites guard that `'='` occurs). -/
def afterLastEq (u : String) : String :=
  String.mk ((u.toList.reverse.takeWhile (fun c => c != '=')).reverse)

/-- Python's whitespace class, as used by `str.strip()`. -/
def isPySpace (c : Char) : Bool :=
  c == ' ' || c == '\t' || c == '\n' || c == '\r' || c == '\x0b' || c == '\x0c'

/-- Python's `s.strip()`. -/
def pyStrip (s : String) : String :=
  String.mk (((s.toList.dropWhile isPySpace).reverse.dropWhile isPySpace).reverse)

/-- Python's `s.endswith(suf)`. -/
def pyEndsWith (s suf : String) : Bool :=
  listStartsWith s.toList.reverse suf.toList.reverse

/-- Fuelled replace-all on char lists; fuel bounds the number of steps and
`fuel = length` is always enough (each step consumes at least one char). -/
def replaceFuel (pat rep : List Char) : ℕ → List Char → List Char
  | _, [] => []
  | 0, l => l
  | n + 1, c :: rest =>
      if !pat.isEmpty && listStartsWith (c :: rest) pat then
        rep ++ replaceFuel pat rep n ((c :: rest).drop pat.length)
      else c :: replaceFuel pat rep n rest

/-- Python's `s.replace(pat, rep)` (all non-overlapping occurrences, left
to right; call sites use non-empty patterns). -/
def pyReplace (s pat rep : String) : String :=
  String.mk (replaceFuel pat.toList rep.toList s.toList.length s.toList)

/-- Python truthiness of an optional string: `None` and `''` are falsy. -/
def strTruthy : Option String → Bool
  | none => false
  | some s => !s.isEmpty

/-- Python's `int` on a digit string. -/
def digitsToNat (cs : List Char) : ℕ :=
  cs.foldl (fun n c => n * 10 + (c.toNat - ('0').toNat)) 0

/-- Take exactly `n` leading decimal digits, returning them and the rest. -/
def takeExactDigits : ℕ → List Char → Option (List Char × List Char)
  | 0, cs => some ([], cs)
  | _ + 1, [] => none
  | n + 1, c :: cs =>
      if c.isDigit then
        match takeExactDigits n cs with
        | none => none
        | some (ds, rest) => some (c :: ds, rest)
      else none

/-- Match the regex `(\d{4})-(\d{2})-(\d{2})` at the start of `cs`. -/
def matchDateAt (cs : List Char) : Option (ℕ × ℕ × ℕ) :=
  match takeExactDigits 4 cs with
  | none => none
  | some (y, r1) =>
      match r1 with
      | '-' :: r2 =>
          match takeExactDigits 2 r2 with
          | none => none
          | some (m, r3) =>
              match r3 with
              | '-' :: r4 =>
                  match takeExactDigits 2 r4 with
                  | none => none
                  | some (d, _) => some (digitsToNat y, digitsToNat m, digitsToNat d)
              | _ => none
      | _ => none

/-- `re.search('(\d{4})-(\d{2})-(\d{2})', ...)`: first position that matches. -/
def findDate : List Char → Option (ℕ × ℕ × ℕ)
  | [] => none
  | c :: rest =>
      match matchDateAt (c :: rest) with
      | some r => some r
      | none => findDate rest

/-- Match the regex `ISBN=(\d+)` at the start of `cs`, returning group 1. -/
def matchIsbnAt (cs : List Char) : Option (List Char) :=
  if listStartsWith cs ("ISBN=").toList then
    let ds := (cs.drop 5).takeWhile Char.isDigit
    if ds.isEmpty then none else some ds
  else none

/-- `re.search('ISBN=(\d+)', ...)`: first position that matches. -/
def findIsbnDigits : List Char → Option (List Char)
  | [] => none
  | c :: rest =>
      match matchIsbnAt (c :: rest) with
      | some ds => some ds
      | none => findIsbnDigits rest

/-! ### The lxml HTML tree

`text` is the text before the first child, `tail` the text directly after
the element (lxml's `.text` / `.tail`). -/

inductive Html where
  | mk (tag : String) (attrs : List (String × String)) (text : Option String)
      (children : List Html) (tail : Option String)

def Html.tag : Html → String
  | .mk t _ _ _ _ => t

def Html.attrs : Html → List (String × String)
  | .mk _ a _ _ _ => a

def Html.text : Html → Option String
  | .mk _ _ tx _ _ => tx

def Html.children : Html → List Html
  | .mk _ _ _ cs _ => cs

def Html.tail : Html → Option String
  | .mk _ _ _ _ tl => tl

mutual

/-- Proper descendants of a node, in document order. -/
def descOf : Html → List Html
  | .mk _ _ _ cs _ => descList cs

/-- All nodes of a forest together with their descendants, document order. -/
def descList : List Html → List Html
  | [] => []
  | c :: rest => c :: (descOf c ++ descList rest)

end

/-- Attribute lookup on a node. -/
def getAttr (n : Html) (k : String) : Option String :=
  match n.attrs.find? (fun p => p.1 == k) with
  | some p => some p.2
  | none => none

/-- XPath `[@class="c"]` (exact attribute match). -/
def hasClass (n : Html) (c : String) : Bool :=
  getAttr n "class" == some c

/-- XPath `[contains(@k,"sub")]`. -/
def attrContains (n : Html) (k sub : String) : Bool :=
  match getAttr n k with
  | some v => containsSub v sub
  | none => false

/-- XPath `.//` relative search: matching proper descendants, document order. -/
def findDesc (p : Html → Bool) (n : Html) : List Html :=
  (descOf n).filter p

/-- XPath `//` absolute search from the document root. -/
def findFromRoot (p : Html → Bool) (root : Html) : List Html :=
  (root :: descOf root).filter p

/-- The text siblings after `c` given the rest of its parent's children:
lxml's `.tail` of `c` and of every following sibling. -/
def tailTexts (c : Html) (rest : List Html) : List String :=
  c.tail.toList ++ rest.filterMap Html.tail

mutual

/-- XPath `.//a[p]/following-sibling::text()` over a forest. -/
def followTexts (p : Html → Bool) : List Html → List String
  | [] => []
  | c :: rest =>
      (if p c then tailTexts c rest else [])
        ++ followInside p c ++ followTexts p rest

/-- The matches of `followTexts` inside one node's children. -/
def followInside (p : Html → Bool) : Html → List String
  | .mk _ _ _ cs _ => followTexts p cs

end

/-- Python indexing `xs[0]`, raising on an empty list. -/
def expectFirst : List α → Except Unit α
  | [] => .error ()
  | a :: _ => .ok a

/-- Dereference that raises on `None` (e.g. `.strip()` on a `None` text). -/
def expectSome : Option α → Except Unit α
  | none => .error ()
  | some a => .ok a

/-! ### Plugin constants and record types (`__init__.py`) -/

def BASE_URL : String := "http://www.aladin.co.kr"

def BROWSE_URL : String := "http://www.aladin.co.kr/shop/wproduct.aspx"

def SEARCH_URL : String := "http://www.aladin.co.kr/search/wsearchresult.aspx?SearchTarget=Book"

/-- A `datetime.datetime` value (only the fields the plugin produces). -/
structure PyDate where
  year : ℕ
  month : ℕ
  day : ℕ
deriving DecidableEq

/-- The calibre `Metadata` record, restricted to the fields this plugin
touches.  Unset optional fields are `none`. -/
structure Metadata where
  title : String
  authors : List String
  series : Option String := none
  series_index : Option ℚ := none
  isbn : Option String := none
  comments : Option String := none
  has_cover : Bool := false
  cover_url : Option String := none
  publisher : Option String := none
  pubdate : Option PyDate := none
  language : Option String := none
  source_relevance : ℕ := 0
deriving DecidableEq

/-! ### `Aladin.get_book_url`, `_create_query`, `_parse_search_results`,
`get_cached_cover_url` -/

/-- `Aladin.get_book_url`.  `idIsbn` is `identifiers.get('isbn', None)`. -/
def get_book_url (idIsbn : Option String) : Option (String × String × String) :=
  match idIsbn with
  | none => none
  | some i =>
      if i.isEmpty then none
      else some ("aladin", i, BROWSE_URL ++ "?ISBN=" ++ i)

/-- The token list built by `_create_query`: quoted euc-kr encodings of the
space-split tokens of the title, then of the first author.  `enc` models
`quote(t.encode('euc-kr'))`. -/
def query_tokens (title : Option String) (authors : List String)
    (enc : String → String) : List String :=
  (match title with
   | none => []
   | some t => if t.isEmpty then [] else (pySplitSpace t).map enc)
  ++
  (match authors with
   | [] => []
   | a :: _ => (pySplitSpace a).map enc)

/-- `Aladin._create_query`.  `checkedIsbn` is the result of calibre's
`check_isbn(identifiers.get('isbn', None))`. -/
def create_query (checkedIsbn : Option String) (title : Option String)
    (authors : List String) (enc : String → String) : Option String :=
  match checkedIsbn with
  | some i => some (BROWSE_URL ++ "?ISBN=" ++ i)
  | none =>
      let tokens := query_tokens title authors enc
      if tokens.isEmpty then none
      else some (SEARCH_URL ++ "&SearchWord=" ++ String.intercalate "+" tokens)

/-- XPath `//div[@class="ss_book_box"]` on the results listing. -/
def search_boxes (root : Html) : List Html :=
  findFromRoot (fun n => n.tag == "div" && hasClass n "ss_book_box") root

/-- XPath `.//a[@class="bo3"]/@href` inside one result box. -/
def bo3Hrefs (item : Html) : List String :=
  (findDesc (fun n => n.tag == "a" && hasClass n "bo3") item).filterMap
    (fun n => getAttr n "href")

/-- The contribution of one result box: its first `bo3` href, if any. -/
def first_bo3_href (item : Html) : Option String :=
  match bo3Hrefs item with
  | [] => none
  | u :: _ => some u

/-- `Aladin._parse_search_results`: append each box's first `bo3` href to
the accumulated match list. -/
def parse_search_results (root : Html) (acc : List String) : List String :=
  (search_boxes root).foldl
    (fun ms item =>
      match bo3Hrefs item with
      | [] => ms
      | u :: _ => ms ++ [u])
    acc

/-- `Aladin.get_cached_cover_url`.  `cache` models
`self._identifier_to_cover_url_cache.get`. -/
def get_cached_cover_url (cache : String → Option String)
    (idIsbn : Option String) : Option String :=
  match idIsbn with
  | none => none
  | some i => if i.isEmpty then none else cache i

/-! ### Worker field extractors (`worker.py`) -/

/-- `Worker.extract_isbn`: `re.search('ISBN=(\d+)', url).groups(1)[0]`;
`none` models the `AttributeError` when the regex does not match. -/
def extract_isbn (url : String) : Option String :=
  (findIsbnDigits url.toList).map String.mk

/-- `Worker.parse_title_series`.  `pyFloat` models Python's `float`; its
`none` models a `ValueError`. -/
def parse_title_series (pyFloat : String → Option ℚ) (root : Html) :
    Except Unit (Option String × Option String × Option ℚ) :=
  match expectFirst (findFromRoot
      (fun n => n.tag == "td" && hasClass n "pwrap_bgtit") root) with
  | .error _ => .error ()
  | .ok bg =>
      match findDesc (fun n => n.tag == "a" && hasClass n "p_topt01") bg with
      | [] => .ok (none, none, none)
      | tn :: _ =>
          match tn.text with
          | none => .error ()
          | some tx =>
              let titleText := pyStrip tx
              match findDesc (fun n => n.tag == "a" && attrContains n "href" "SRID=") bg with
              | [] => .ok (some titleText, none, none)
              | sn :: _ =>
                  match sn.text with
                  | none => .error ()
                  | some sx =>
                      let grp := (rsplit1 sx "시리즈").map pyStrip
                      let name := grp.headD ""
                      if grp.length == 2 && !(grp.getD 1 "").isEmpty then
                        match pyFloat (grp.getD 1 "") with
                        | none => .error ()
                        | some v => .ok (some titleText, some name, some v)
                      else .ok (some titleText, some name, none)

/-- `Worker.parse_authors`. -/
def parse_authors (root : Html) : Except Unit (List String) :=
  match expectFirst (findFromRoot
      (fun n => n.tag == "td" && hasClass n "pwrap_bgtit") root) with
  | .error _ => .error ()
  | .ok bg =>
      (findDesc (fun n => n.tag == "a" && hasClass n "np_af" &&
          attrContains n "href" "AuthorSearch") bg).mapM
        (fun n => (expectSome n.text).map pyStrip)

/-- `Worker.parse_isbn`: the `og:url` meta content; the part after its last
`'='` when it contains `'ISBN='`, else `None`. -/
def parse_isbn (root : Html) : Except Unit (Option String) :=
  match expectFirst ((findFromRoot
      (fun n => n.tag == "meta" && getAttr n "property" == some "og:url")
      root).filterMap (fun n => getAttr n "content")) with
  | .error _ => .error ()
  | .ok u =>
      if containsSub u "ISBN=" then .ok (some (afterLastEq u)) else .ok none

/-- `Worker.parse_publisher`. -/
def parse_publisher (root : Html) : Except Unit (Option String) :=
  match expectFirst (findFromRoot
      (fun n => n.tag == "td" && hasClass n "pwrap_bgtit") root) with
  | .error _ => .error ()
  | .ok bg =>
      match findDesc (fun n => n.tag == "a" && hasClass n "np_af" &&
          attrContains n "href" "PublisherSearch") bg with
      | [] => .ok none
      | n :: _ =>
          match n.text with
          | none => .error ()
          | some s => .ok (some (pyStrip s))

/-- `Worker._convert_date_text`.  `mkDate` models the `datetime.datetime`
constructor; its `none` models a `ValueError` on an invalid date. -/
def convert_date_text (mkDate : ℕ → ℕ → ℕ → Option PyDate) (s : String) :
    Except Unit PyDate :=
  match findDate s.toList with
  | none => .error ()
  | some (y, m, d) =>
      match mkDate y m d with
      | none => .error ()
      | some dt => .ok dt

/-- `Worker.parse_published_date`. -/
def parse_published_date (mkDate : ℕ → ℕ → ℕ → Option PyDate) (root : Html) :
    Except Unit (Option PyDate) :=
  match expectFirst (findFromRoot
      (fun n => n.tag == "td" && hasClass n "pwrap_bgtit") root) with
  | .error _ => .error ()
  | .ok bg =>
      match followTexts (fun n => n.tag == "a" && hasClass n "np_af" &&
          attrContains n "href" "PublisherSearch") bg.children with
      | [] => .ok none
      | t :: _ =>
          match convert_date_text mkDate t with
          | .error _ => .error ()
          | .ok d => .ok (some d)

/-- `Worker.parse_comments`: content of `meta[@name="Description"]`. -/
def parse_comments (root : Html) : Except Unit String :=
  expectFirst ((findFromRoot
      (fun n => n.tag == "meta" && getAttr n "name" == some "Description")
      root).filterMap (fun n => getAttr n "content"))

/-- `Worker._is_valid_image`. -/
def isValidImage (u : String) : Bool :=
  !(pyEndsWith u "noimg_b.gif")

/-- XPath `//div[@class="p_previewbox"]/a/img/@src`. -/
def previewSrcs (root : Html) : List String :=
  (findFromRoot (fun n => n.tag == "div" && hasClass n "p_previewbox")
      root).flatMap
    (fun d => (d.children.filter (fun n => n.tag == "a")).flatMap
      (fun a => (a.children.filter (fun n => n.tag == "img")).filterMap
        (fun n => getAttr n "src")))

/-- The candidate cover URL of `parse_cover`: the first preview `src` with
`'_fs.'` replaced by `'_f.'`, else the `og:image` content. -/
def coverPageUrl (root : Html) (og : String) : String :=
  match previewSrcs root with
  | [] => og
  | u :: _ => pyReplace u "_fs." "_f."

/-- `Worker.parse_cover` without its side effects: `.ok (some u)` means a
valid cover URL `u` was found (and is cached, with the relevance bumped by
5, by `parse_details` below); `.ok none` is the invalid-placeholder early
return; `.error` the exception on a missing `og:image`. -/
def parse_cover (root : Html) : Except Unit (Option String) :=
  match expectFirst ((findFromRoot
      (fun n => n.tag == "meta" && getAttr n "property" == some "og:image")
      root).filterMap (fun n => getAttr n "content")) with
  | .error _ => .error ()
  | .ok og =>
      if isValidImage (coverPageUrl root og) then .ok (some (coverPageUrl root og))
      else .ok none

/-! ### The try/except field assignments of `Worker.parse_details` -/

/-- The title after the `try` around `parse_title_series` (exception gives
`title = None`). -/
def titleOf (pyFloat : String → Option ℚ) (root : Html) : Option String :=
  match parse_title_series pyFloat root with
  | .ok (t, _, _) => t
  | .error _ => none

/-- The series name after the same `try`. -/
def seriesOf (pyFloat : String → Option ℚ) (root : Html) : Option String :=
  match parse_title_series pyFloat root with
  | .ok (_, s, _) => s
  | .error _ => none

/-- The series index after the same `try`. -/
def seriesIdxOf (pyFloat : String → Option ℚ) (root : Html) : Option ℚ :=
  match parse_title_series pyFloat root with
  | .ok (_, _, i) => i
  | .error _ => none

/-- The authors after the `try` around `parse_authors` (exception gives
`authors = []`). -/
def authorsOf (root : Html) : List String :=
  match parse_authors root with
  | .ok l => l
  | .error _ => []

/-- The ISBN-13 candidate after the `try` around `parse_isbn`. -/
def ogIsbn (root : Html) : Option String :=
  match parse_isbn root with
  | .ok v => v
  | .error _ => none

/-- `self.cover_url` after the `try` around `parse_cover`. -/
def coverOf (root : Html) : Option String :=
  match parse_cover root with
  | .ok v => v
  | .error _ => none

/-- `mi.publisher` after the `try` around `parse_publisher`. -/
def publisherOf (root : Html) : Option String :=
  match parse_publisher root with
  | .ok v => v
  | .error _ => none

/-- `mi.pubdate` after the `try` around `parse_published_date`. -/
def pubdateOf (mkDate : ℕ → ℕ → ℕ → Option PyDate) (root : Html) :
    Option PyDate :=
  match parse_published_date mkDate root with
  | .ok v => v
  | .error _ => none

/-- `mi.comments` after the `try` around `parse_comments`. -/
def commentsOf (root : Html) : Option String :=
  match parse_comments root with
  | .ok c => some c
  | .error _ => none

/-- Observable outcome of one worker: the record put on the result queue
(at most one — `result_queue.put` occurs once, at the very end of
`parse_details`), the pairs added to the plugin's isbn→cover-URL cache,
and the worker's final `relevance`, `cover_url` and `isbn` fields. -/
structure WorkerOut where
  put : Option Metadata
  cacheAdds : List (String × String)
  relevance : ℕ
  coverUrl : Option String
  isbn : Option String
deriving DecidableEq

/-- The empty outcome of every early `return` in the worker. -/
def noOut (relevance : ℕ) : WorkerOut :=
  { put := none, cacheAdds := [], relevance := relevance,
    coverUrl := none, isbn := none }

/-- `Worker.parse_details`.  calibre's `clean_downloaded_metadata` (host
code, out of scope) is modelled as the identity on the record. -/
def parse_details (pyFloat : String → Option ℚ)
    (mkDate : ℕ → ℕ → ℕ → Option PyDate)
    (url : String) (relevance : ℕ) (root : Html) : WorkerOut :=
  if !(strTruthy (titleOf pyFloat root)) || (authorsOf root).isEmpty
      || !(strTruthy (extract_isbn url)) then noOut relevance
  else
    let auth := authorsOf root
    let titleStr := (titleOf pyFloat root).getD ""
    let isbnUrl := (extract_isbn url).getD ""
    let ser := seriesOf pyFloat root
    let serF := if strTruthy ser then ser else none
    let idxF := if strTruthy ser then seriesIdxOf pyFloat root else none
    let isbnF :=
      match ogIsbn root with
      | some s => if s.isEmpty then isbnUrl else s
      | none => isbnUrl
    let cov := coverOf root
    let adds : List (String × String) :=
      match cov with
      | some u => [(isbnF, u)]
      | none => []
    let rel2 :=
      match cov with
      | some _ => relevance + 5
      | none => relevance
    { put := some
        { title := titleStr
          authors := auth
          series := serF
          series_index := idxF
          isbn := some isbnF
          comments := commentsOf root
          has_cover := strTruthy cov
          cover_url := cov
          publisher := publisherOf root
          pubdate := pubdateOf mkDate root
          language := some "ko"
          source_relevance := rel2 }
      cacheAdds := adds
      relevance := rel2
      coverUrl := cov
      isbn := some isbnF }

/-- The outcome of `self.browser.open_novisit(url).read().strip()` followed
by the euc-kr decode (which never raises, `errors='replace'`): an HTTP 404
(`e.getcode() == 404`), a socket timeout, any other exception, or the
decoded stripped body. -/
inductive Fetch where
  | err404
  | errTimeout
  | errOther
  | ok (raw : String)
deriving DecidableEq

/-- `Worker.get_details`.  `parseHtml` models lxml's `fromstring` (`none` =
exception), `cleanAscii` calibre's `clean_ascii_chars`. -/
def get_details (pyFloat : String → Option ℚ)
    (mkDate : ℕ → ℕ → ℕ → Option PyDate)
    (parseHtml : String → Option Html) (cleanAscii : String → String)
    (url : String) (relevance : ℕ) (fetch : Fetch) : WorkerOut :=
  match fetch with
  | .err404 => noOut relevance
  | .errTimeout => noOut relevance
  | .errOther => noOut relevance
  | .ok raw =>
      if containsSub raw "HTTP 404." then noOut relevance
      else
        match parseHtml (cleanAscii raw) with
        | none => noOut relevance
        | some root => parse_details pyFloat mkDate url relevance root

/-! ### `Aladin.identify`: worker fan-out and the polling join loop -/

/-- `w.join(0.2)`: the poll interval of the join loop, in seconds. -/
def joinPollSeconds : ℚ := 2 / 10

/-- Python's `enumerate(ms)` starting at `k`. -/
def enumFromW (k : ℕ) : List String → List (ℕ × String)
  | [] => []
  | u :: rest => (k, u) :: enumFromW (k + 1) rest

/-- The worker threads spawned by `identify`: one per match URL, the
worker's `relevance` argument being the URL's index in the list. -/
def enumWorkers (ms : List String) : List (ℕ × String) :=
  enumFromW 0 ms

/-- One iteration of the `while not abort.is_set()` loop, as observed by
the code: `atTop` is the abort flag read by the `while` condition, and
`obs` holds, for each worker in order, the abort flag read right after
`w.join(0.2)` and the result of `w.is_alive()`. -/
structure Round where
  atTop : Bool
  obs : List (Bool × Bool)
deriving DecidableEq

/-- The inner `for w in workers` sweep: returns whether it broke on abort,
and the final `a_worker_is_alive`. -/
def innerSweep : List (Bool × Bool) → Bool → Bool × Bool
  | [], acc => (false, acc)
  | (ab, alive) :: rest, acc =>
      if ab then (true, acc) else innerSweep rest (acc || alive)

/-- Why the join loop returned. -/
inductive ExitReason where
  | aborted
  | allDead
  | fuelOut
deriving DecidableEq

/-- The join loop of `identify`, run over a (finite) trace of observation
rounds; also counts the rounds consumed.  `.fuelOut` means the trace ended
before the loop did. -/
def joinLoop : List Round → ExitReason × ℕ
  | [] => (.fuelOut, 0)
  | r :: rest =>
      if r.atTop then (.aborted, 1)
      else if (innerSweep r.obs false).1 && !(innerSweep r.obs false).2 then
        (.aborted, 1)
      else if !(innerSweep r.obs false).1 && !(innerSweep r.obs false).2 then
        (.allDead, 1)
      else ((joinLoop rest).1, (joinLoop rest).2 + 1)

/-- Was abort observed (at the top, or after some join) in this round? -/
def abortObserved (r : Round) : Bool :=
  r.atTop || r.obs.any (fun p => p.1)

/-- `threading.Event` is never cleared by the host during `identify`: once
abort is observed in a round, the next round's `while` condition sees it. -/
def MonoAbort (rs : List Round) : Prop :=
  ∀ i, i + 1 < rs.length → abortObserved (rs.getD i ⟨false, []⟩) = true →
    (rs.getD (i + 1) ⟨false, []⟩).atTop = true

/-- The search-branch world of `identify`: whether
`br.open_novisit(query)`/`read` raises, the decoded stripped body
otherwise, and the result of lxml's `fromstring` on it. -/
structure SearchWorld where
  openFails : Bool
  raw : String
  parsed : Option Html

/-- How a call of `identify` goes: an early error return before any worker
is spawned (`insufficient` metadata, or a failed/unparsable search), the
abort check between match collection and worker spawn firing, or the
worker fan-out followed by the join loop.  `queried` records whether an
HTTP search request was issued. -/
inductive IdentifyOutcome where
  | insufficient
  | searchFailed
  | abortedPre (ms : List String) (queried : Bool)
  | ran (workers : List (ℕ × String)) (queried : Bool) (exit : ExitReason × ℕ)
deriving DecidableEq

/-- `Aladin.identify`.  `isbnRaw` is `identifiers.get('isbn', None)`;
`checkIsbn` models calibre's `check_isbn`; `enc` as in `create_query`;
`w` the search-branch world; `abortPre` the abort flag at the check before
the worker spawn; `rounds` the join-loop observation trace. -/
def identify_run (isbnRaw title : Option String) (authors : List String)
    (checkIsbn : Option String → Option String) (enc : String → String)
    (w : SearchWorld) (abortPre : Bool) (rounds : List Round) :
    IdentifyOutcome :=
  if strTruthy isbnRaw then
    let ms := [BROWSE_URL ++ "?ISBN=" ++ isbnRaw.getD ""]
    if abortPre then .abortedPre ms false
    else .ran (enumWorkers ms) false (joinLoop rounds)
  else
    match create_query (checkIsbn isbnRaw) title authors enc with
    | none => .insufficient
    | some _ =>
        if w.openFails then .searchFailed
        else if w.raw.isEmpty then .searchFailed
        else
          match w.parsed with
          | none => .searchFailed
          | some root =>
              let ms := parse_search_results root []
              if abortPre then .abortedPre ms true
              else .ran (enumWorkers ms) true (joinLoop rounds)

/-- Whether an HTTP search request was issued in an `identify` outcome. -/
def queriedFlag : IdentifyOutcome → Bool
  | .insufficient => false
  | .searchFailed => true
  | .abortedPre _ q => q
  | .ran _ q _ => q

/-! ### `Aladin.download_cover` -/

/-- `results.sort(key=self.identify_results_keygen(...))`: a stable sort by
the host-provided key. -/
def sortByKey (keygen : Metadata → ℕ) (l : List Metadata) : List Metadata :=
  l.insertionSort (fun a b => keygen a ≤ keygen b)

/-- The tail of `download_cover` once a cover URL is known: the abort check
then the download; `download u = none` models the logged download failure
(nothing enqueued). -/
def finishDownload {β : Type} (abortBeforeDownload : Bool)
    (download : String → Option β) (u : String) : Option β :=
  if abortBeforeDownload then none else download u

/-- `Aladin.download_cover`.  Returns what lands on `result_queue` (the
`cdata` of the `(self, cdata)` pair, or `none`) together with whether
`identify` was run.  `results` is the drained private queue; `keygen`
models the host's `identify_results_keygen` key. -/
def download_cover {β : Type} (cache : String → Option String)
    (idIsbn : Option String) (abortAfterIdentify abortBeforeDownload : Bool)
    (results : List Metadata) (keygen : Metadata → ℕ)
    (download : String → Option β) : Option β × Bool :=
  match get_cached_cover_url cache idIsbn with
  | some u => (finishDownload abortBeforeDownload download u, false)
  | none =>
      if abortAfterIdentify then (none, true)
      else
        match (sortByKey keygen results).findSome?
            (fun mi => get_cached_cover_url cache mi.isbn) with
        | none => (none, true)
        | some u => (finishDownload abortBeforeDownload download u, true)

/-! ### Concrete inputs for closed instances -/

/-- The default round used for out-of-range indexing. -/
def d0 : Round := ⟨false, []⟩

/-- A concrete `float`: parses only the string `"1"`. -/
def pfW : String → Option ℚ := fun s => if s = "1" then some 1 else none

/-- A concrete `datetime.datetime` that accepts every date. -/
def mdW : ℕ → ℕ → ℕ → Option PyDate := fun y m d => some ⟨y, m, d⟩

/-- A concrete detail-page URL with an ISBN query parameter. -/
def urlW : String := "http://www.aladin.co.kr/shop/wproduct.aspx?ISBN=9788983920683"

/-- A concrete, fully populated Aladin detail page. -/
def pageW : Html := .mk "html" [] none [
  .mk "head" [] none [
    .mk "meta" [("property", "og:url"),
      ("content", "http://www.aladin.co.kr/shop/wproduct.aspx?ISBN=8983920688")]
      none [] none,
    .mk "meta" [("property", "og:image"),
      ("content", "http://image.aladin.co.kr/cover/8983920688_b.jpg")] none [] none,
    .mk "meta" [("name", "Description"), ("content", "책소개")] none [] none] none,
  .mk "body" [] none [
    .mk "td" [("class", "pwrap_bgtit")] none [
      .mk "a" [("class", "p_topt01")] (some "해리포터와 마법사의 돌 1") [] none,
      .mk "a" [("href", "http://x?SRID=7")] (some "해리포터 시리즈 1") [] none,
      .mk "a" [("class", "np_af"), ("href", "http://x?AuthorSearch=y")]
        (some "조앤.K.롤링") [] none,
      .mk "a" [("class", "np_af"), ("href", "http://x?PublisherSearch=y")]
        (some "문학수첩") [] (some " | 1999-11-19")] none,
    .mk "div" [("class", "p_previewbox")] none [
      .mk "a" [] none [
        .mk "img"
          [("src", "http://image.aladin.co.kr/product/21/6/letslook/8983920688_fs.jpg")]
          none [] none] none] none] none] none

/-- The record the worker builds from `pageW` at relevance 1. -/
def miW : Metadata :=
  { title := "해리포터와 마법사의 돌 1"
    authors := ["조앤.K.롤링"]
    series := some "해리포터"
    series_index := some 1
    isbn := some "8983920688"
    comments := some "책소개"
    has_cover := true
    cover_url := some "http://image.aladin.co.kr/product/21/6/letslook/8983920688_f.jpg"
    publisher := some "문학수첩"
    pubdate := some ⟨1999, 11, 19⟩
    language := some "ko"
    source_relevance := 6 }

/-- An `og:url` content that contains `'ISBN='` with nothing after the
final `'='`. -/
def ogB : String := "http://www.aladin.co.kr/shop/wproduct.aspx?ISBN="

/-- A detail page whose `og:url` ends in `'ISBN='`. -/
def pageB : Html := .mk "html" [] none [
  .mk "meta" [("property", "og:url"), ("content", ogB)] none [] none,
  .mk "td" [("class", "pwrap_bgtit")] none [
    .mk "a" [("class", "p_topt01")] (some "T") [] none,
    .mk "a" [("class", "np_af"), ("href", "q?AuthorSearch=1")] (some "A") [] none]
    none] none

/-- A detail-page URL whose ISBN parameter is `123`. -/
def urlB : String := "http://www.aladin.co.kr/shop/wproduct.aspx?ISBN=123"

/-- A concrete cover-URL cache with a single entry. -/
def cacheW : String → Option String := fun i =>
  if i == "9788983920683" then some "http://image.aladin.co.kr/8983920688_f.jpg"
  else none

/-! ### Helper lemmas -/

/-- `splitSpAux` never returns the empty list. -/
theorem splitSpAux_ne_nil (cs : List Char) : ∀ acc, splitSpAux cs acc ≠ [] := by
  induction cs with
  | nil => intro acc; simp [splitSpAux]
  | cons c rest ih =>
      intro acc
      by_cases h : c == ' '
      · simp [splitSpAux, h]
      · simp [splitSpAux, h, ih]

/-- Python's `s.split(' ')` is never empty. -/
theorem pySplitSpace_ne_nil (s : String) : pySplitSpace s ≠ [] :=
  splitSpAux_ne_nil s.toList []

/-- The accumulator law of the `_parse_search_results` fold. -/
theorem searchFold (l : List Html) (ms : List String) :
    l.foldl (fun ms item =>
        match bo3Hrefs item with
        | [] => ms
        | u :: _ => ms ++ [u]) ms
      = ms ++ l.filterMap first_bo3_href := by
  induction l generalizing ms with
  | nil => simp
  | cons a tl ih =>
      simp only [List.foldl_cons, List.filterMap_cons]
      cases h : bo3Hrefs a with
      | nil => simp [first_bo3_href, h, ih]
      | cons u us => simp [first_bo3_href, h, ih]

/-- The inner sweep breaks on abort iff some join observed abort. -/
theorem innerSweep_fst (obs : List (Bool × Bool)) :
    ∀ acc, (innerSweep obs acc).1 = obs.any (fun p => p.1) := by
  induction obs with
  | nil => intro acc; simp [innerSweep]
  | cons p rest ih =>
      intro acc
      obtain ⟨ab, alive⟩ := p
      cases ab
      · simp [innerSweep, ih]
      · simp [innerSweep]

/-- The inner sweep ends with no abort and `a_worker_is_alive = False` iff
every observation was no-abort and not-alive. -/
theorem innerSweep_ff_ff (obs : List (Bool × Bool)) :
    ∀ acc, (innerSweep obs acc = (false, false) ↔
      (acc = false ∧ ∀ p ∈ obs, p.1 = false ∧ p.2 = false)) := by
  induction obs with
  | nil => intro acc; simp [innerSweep]
  | cons p rest ih =>
      intro acc
      obtain ⟨ab, alive⟩ := p
      cases ab
      · cases alive
        · simpa [innerSweep] using ih acc
        · simp [innerSweep, ih]
      · simp [innerSweep]

/-- A non-abort exit of the join loop happens in a round whose `while`
condition saw no abort and whose full sweep observed no abort and no
living worker. -/
theorem joinLoop_allDead (rs : List Round) :
    (joinLoop rs).1 = .allDead →
      ∃ i, i < rs.length ∧ (joinLoop rs).2 = i + 1 ∧
        (rs.getD i d0).atTop = false ∧
        ∀ p ∈ (rs.getD i d0).obs, p.1 = false ∧ p.2 = false := by
  induction rs with
  | nil => intro h; simp [joinLoop] at h
  | cons r rest ih =>
      intro h
      by_cases hat : r.atTop = true
      · simp [joinLoop, hat] at h
      · cases hb1 : (innerSweep r.obs false).1
        · cases hb2 : (innerSweep r.obs false).2
          · refine ⟨0, by simp, ?_, ?_, ?_⟩
            · simp [joinLoop, hat, hb1, hb2]
            · simpa using Bool.not_eq_true _ |>.mp hat
            · have : innerSweep r.obs false = (false, false) :=
                Prod.ext hb1 hb2
              have := (innerSweep_ff_ff r.obs false).mp this
              simpa using this.2
          · have h' : (joinLoop rest).1 = .allDead := by
              simpa [joinLoop, hat, hb1, hb2] using h
            obtain ⟨i, hi, hc, hTop, hobs⟩ := ih h'
            exact ⟨i + 1, by simpa using hi,
              by simp [joinLoop, hat, hb1, hb2, hc], by simpa using hTop,
              by simpa using hobs⟩
        · cases hb2 : (innerSweep r.obs false).2
          · simp [joinLoop, hat, hb1, hb2] at h
          · have h' : (joinLoop rest).1 = .allDead := by
              simpa [joinLoop, hat, hb1, hb2] using h
            obtain ⟨i, hi, hc, hTop, hobs⟩ := ih h'
            exact ⟨i + 1, by simpa using hi,
              by simp [joinLoop, hat, hb1, hb2, hc], by simpa using hTop,
              by simpa using hobs⟩

/-- An abort exit of the join loop happens in a round that observed
abort. -/
theorem joinLoop_aborted (rs : List Round) :
    (joinLoop rs).1 = .aborted →
      ∃ i, i < rs.length ∧ (joinLoop rs).2 = i + 1 ∧
        abortObserved (rs.getD i d0) = true := by
  induction rs with
  | nil => intro h; simp [joinLoop] at h
  | cons r rest ih =>
      intro h
      by_cases hat : r.atTop = true
      · exact ⟨0, by simp, by simp [joinLoop, hat], by simp [abortObserved, hat]⟩
      · cases hb1 : (innerSweep r.obs false).1
        · cases hb2 : (innerSweep r.obs false).2
          · simp [joinLoop, hat, hb1, hb2] at h
          · have h' : (joinLoop rest).1 = .aborted := by
              simpa [joinLoop, hat, hb1, hb2] using h
            obtain ⟨i, hi, hc, hobs⟩ := ih h'
            exact ⟨i + 1, by simpa using hi,
              by simp [joinLoop, hat, hb1, hb2, hc], by simpa using hobs⟩
        · cases hb2 : (innerSweep r.obs false).2
          · refine ⟨0, by simp, by simp [joinLoop, hat, hb1, hb2], ?_⟩
            have := innerSweep_fst r.obs false
            rw [hb1] at this
            simp [abortObserved, this.symm]
          · have h' : (joinLoop rest).1 = .aborted := by
              simpa [joinLoop, hat, hb1, hb2] using h
            obtain ⟨i, hi, hc, hobs⟩ := ih h'
            exact ⟨i + 1, by simpa using hi,
              by simp [joinLoop, hat, hb1, hb2, hc], by simpa using hobs⟩

/-- `MonoAbort` restricts to the tail of the trace. -/
theorem monoAbort_tail {r : Round} {rest : List Round} :
    MonoAbort (r :: rest) → MonoAbort rest := by
  intro h i hlen hobs
  have := h (i + 1) (by simpa using hlen) (by simpa using hobs)
  simpa using this

/-- The join loop consumes the head round and either stops or recurses. -/
theorem joinLoop_cons_consumed (r : Round) (rest : List Round) :
    (joinLoop (r :: rest)).2 = 1 ∨
      (joinLoop (r :: rest)).2 = (joinLoop rest).2 + 1 := by
  by_cases hat : r.atTop = true
  · left; simp [joinLoop, hat]
  · cases hb1 : (innerSweep r.obs false).1
    · cases hb2 : (innerSweep r.obs false).2
      · left; simp [joinLoop, hat, hb1, hb2]
      · right; simp [joinLoop, hat, hb1, hb2]
    · cases hb2 : (innerSweep r.obs false).2
      · left; simp [joinLoop, hat, hb1, hb2]
      · right; simp [joinLoop, hat, hb1, hb2]

/-- Promptness: with a monotone abort flag, once some round observes
abort the loop consumes at most one further round. -/
theorem joinLoop_prompt (rs : List Round) :
    MonoAbort rs → ∀ i, i < rs.length →
      abortObserved (rs.getD i d0) = true → (joinLoop rs).2 ≤ i + 2 := by
  induction rs with
  | nil => intro _ i hi; simp at hi
  | cons r rest ih =>
      intro hmono i hi hobs
      by_cases hat : r.atTop = true
      · have hc : (joinLoop (r :: rest)).2 = 1 := by simp [joinLoop, hat]
        omega
      · cases i with
        | zero =>
            have hobs0 : abortObserved r = true := by simpa using hobs
            have h1 : (innerSweep r.obs false).1 = true := by
              rw [innerSweep_fst]
              simpa [abortObserved, hat] using hobs0
            cases hb2 : (innerSweep r.obs false).2
            · have hc : (joinLoop (r :: rest)).2 = 1 := by
                simp [joinLoop, hat, h1, hb2]
              omega
            · cases rest with
              | nil =>
                  have hc : (joinLoop [r]).2 = (joinLoop ([] : List Round)).2 + 1 := by
                    simp [joinLoop, hat, h1, hb2]
                  have hz : (joinLoop ([] : List Round)).2 = 0 := by
                    simp [joinLoop]
                  omega
              | cons r' rest' =>
                  have hnext : r'.atTop = true := by
                    have := hmono 0 (by simp) (by simpa using hobs0)
                    simpa using this
                  have hc : (joinLoop (r :: r' :: rest')).2 =
                      (joinLoop (r' :: rest')).2 + 1 := by
                    simp [joinLoop, hat, h1, hb2]
                  have hc' : (joinLoop (r' :: rest')).2 = 1 := by
                    simp [joinLoop, hnext]
                  omega
        | succ j =>
            have hmono' : MonoAbort rest := monoAbort_tail hmono
            have hobs' : abortObserved (rest.getD j d0) = true := by
              simpa using hobs
            have hj : j < rest.length := by simpa using hi
            have hrec := ih hmono' j hj hobs'
            rcases joinLoop_cons_consumed r rest with hc | hc
            · omega
            · omega

/-- The `k`-shifted enumeration, indexed. -/
theorem enumFromW_getD (ms : List String) :
    ∀ k i, i < ms.length →
      (enumFromW k ms).getD i (0, "") = (k + i, ms.getD i "") := by
  induction ms with
  | nil => intro k i hi; simp at hi
  | cons u rest ih =>
      intro k i hi
      cases i with
      | zero => simp [enumFromW]
      | succ j =>
          have hj : j < rest.length := by simpa using hi
          have := ih (k + 1) j hj
          simpa [enumFromW, Nat.add_assoc, Nat.add_comm 1 j] using this

/-- The worker list pairs each match URL with its index. -/
theorem enumWorkers_getD (ms : List String) (i : ℕ) (hi : i < ms.length) :
    (enumWorkers ms).getD i (0, "") = (i, ms.getD i "") := by
  have := enumFromW_getD ms 0 i hi
  simpa [enumWorkers] using this

/-- The worker list has one entry per match URL. -/
theorem enumWorkers_length (ms : List String) :
    (enumWorkers ms).length = ms.length := by
  suffices h : ∀ k, (enumFromW k ms).length = ms.length by
    simpa [enumWorkers] using h 0
  induction ms with
  | nil => intro k; simp [enumFromW]
  | cons u rest ih => intro k; simp [enumFromW, ih]

/-- A valid cover URL returned by `parse_cover` is never the placeholder
image. -/
theorem parse_cover_valid (root : Html) (u : String) :
    coverOf root = some u → pyEndsWith u "noimg_b.gif" = false := by
  intro h
  unfold coverOf parse_cover at h
  cases hfe : expectFirst ((findFromRoot
      (fun n => n.tag == "meta" && getAttr n "property" == some "og:image")
      root).filterMap (fun n => getAttr n "content")) with
  | error e => rw [hfe] at h; simp at h
  | ok og =>
      rw [hfe] at h
      dsimp only at h
      cases hv : isValidImage (coverPageUrl root og)
      · rw [hv] at h; simp at h
      · rw [hv] at h
        simp only [if_true] at h
        have hu : coverPageUrl root og = u := by simpa using h
        rw [← hu]
        simpa [isValidImage] using hv

/-- The worker enqueues iff title, authors and the URL ISBN are truthy. -/
theorem parse_details_put_isSome (pf : String → Option ℚ)
    (md : ℕ → ℕ → ℕ → Option PyDate) (url : String) (rel : ℕ) (root : Html) :
    ((parse_details pf md url rel root).put).isSome = true ↔
      (strTruthy (titleOf pf root) = true ∧ (authorsOf root).isEmpty = false ∧
        strTruthy (extract_isbn url) = true) := by
  cases h1 : strTruthy (titleOf pf root)
  · simp [parse_details, h1, noOut]
  · cases h2 : (authorsOf root).isEmpty
    · cases h3 : strTruthy (extract_isbn url)
      · simp [parse_details, h1, h2, h3, noOut]
      · simp [parse_details, h1, h2, h3]
    · simp [parse_details, h1, h2, noOut]

/-- An optional string is truthy iff it is a non-empty string. -/
theorem strTruthy_iff (o : Option String) :
    strTruthy o = true ↔ ∃ s, o = some s ∧ s ≠ "" := by
  cases o with
  | none => simp [strTruthy]
  | some s =>
      simp only [strTruthy, Bool.not_eq_true', Option.some.injEq]
      constructor
      · intro h
        refine ⟨s, rfl, ?_⟩
        intro hEq
        subst hEq
        rw [show String.isEmpty "" = true from by decide] at h
        exact Bool.noConfusion h
      · rintro ⟨t, hEq, hne⟩
        subst hEq
        cases he : s.isEmpty
        · rfl
        · exact absurd (String.isEmpty_iff s |>.mp (by simp [he])) hne

/-- The record a successful `parse_details` enqueues, field by field. -/
theorem parse_details_put_eq (pf : String → Option ℚ)
    (md : ℕ → ℕ → ℕ → Option PyDate) (url : String) (rel : ℕ) (root : Html)
    (mi : Metadata)
    (h : (parse_details pf md url rel root).put = some mi) :
    mi = { title := (titleOf pf root).getD ""
           authors := authorsOf root
           series := if strTruthy (seriesOf pf root) then seriesOf pf root else none
           series_index :=
             if strTruthy (seriesOf pf root) then seriesIdxOf pf root else none
           isbn := some (match ogIsbn root with
             | some s => if s.isEmpty then (extract_isbn url).getD "" else s
             | none => (extract_isbn url).getD "")
           comments := commentsOf root
           has_cover := strTruthy (coverOf root)
           cover_url := coverOf root
           publisher := publisherOf root
           pubdate := pubdateOf md root
           language := some "ko"
           source_relevance :=
             match coverOf root with
             | some _ => rel + 5
             | none => rel } := by
  unfold parse_details at h
  split at h
  · simp [noOut] at h
  · exact (Option.some.inj h).symm

/-- Every cache entry written by `parse_details` passed the placeholder
check. -/
theorem parse_details_cacheAdds (pf : String → Option ℚ)
    (md : ℕ → ℕ → ℕ → Option PyDate) (url : String) (rel : ℕ) (root : Html) :
    ∀ p ∈ (parse_details pf md url rel root).cacheAdds,
      pyEndsWith p.2 "noimg_b.gif" = false := by
  unfold parse_details
  split
  · simp [noOut]
  · cases hcov : coverOf root with
    | none => simp [hcov]
    | some u =>
        simp only [hcov, List.mem_singleton]
        intro p hp
        subst hp
        exact parse_cover_valid root u hcov

/-! ### The claims -/

/-- C1: for a truthy `'isbn'` identifier, `identify` appends exactly the
direct-lookup URL `'http://www.aladin.co.kr/shop/wproduct.aspx?ISBN='`
followed by that isbn as its single match, issues no search query, and
proceeds straight to spawning workers; `get_book_url` returns the triple
`('aladin', isbn, url)` with that same URL. -/
theorem claim_isbn_direct_lookup (i : String) (t : Option String)
    (a : List String) (ci : Option String → Option String)
    (enc : String → String) (w : SearchWorld) (rs : List Round)
    (h : i.isEmpty = false) :
    identify_run (some i) t a ci enc w false rs
        = .ran [(0, BROWSE_URL ++ "?ISBN=" ++ i)] false (joinLoop rs)
      ∧ get_book_url (some i) = some ("aladin", i, BROWSE_URL ++ "?ISBN=" ++ i)
      ∧ BROWSE_URL ++ "?ISBN=" = "http://www.aladin.co.kr/shop/wproduct.aspx?ISBN=" := by
  refine ⟨?_, ?_, by decide⟩
  · simp [identify_run, strTruthy, h, enumWorkers, enumFromW]
  · simp [get_book_url, h]

/-- Witness for C1 at a concrete ISBN. -/
theorem claim_isbn_direct_lookup_witness :
    identify_run (some "9788983920683") none [] (fun _ => none) id
        ⟨false, "", none⟩ false []
        = .ran [(0, BROWSE_URL ++ "?ISBN=" ++ "9788983920683")] false (joinLoop [])
      ∧ get_book_url (some "9788983920683")
        = some ("aladin", "9788983920683", BROWSE_URL ++ "?ISBN=" ++ "9788983920683")
      ∧ BROWSE_URL ++ "?ISBN=" = "http://www.aladin.co.kr/shop/wproduct.aspx?ISBN=" :=
  claim_isbn_direct_lookup "9788983920683" none [] (fun _ => none) id
    ⟨false, "", none⟩ [] (by decide)

/-- C8: with a truthy `'isbn'` identifier, `identify` issues only the
direct ISBN lookup: its outcome is independent of the title, authors and
the search-branch world, and no search query is ever made — there is no
fallback round, whatever the lookup produces. -/
theorem claim_no_retry (isbnRaw t t' : Option String) (a a' : List String)
    (ci ci' : Option String → Option String) (enc enc' : String → String)
    (w w' : SearchWorld) (ab : Bool) (rs : List Round)
    (h : strTruthy isbnRaw = true) :
    identify_run isbnRaw t a ci enc w ab rs
        = identify_run isbnRaw t' a' ci' enc' w' ab rs
      ∧ queriedFlag (identify_run isbnRaw t a ci enc w ab rs) = false := by
  constructor
  · simp [identify_run, h]
  · cases hab : ab
    · simp [identify_run, h, hab, queriedFlag]
    · simp [identify_run, h, hab, queriedFlag]

/-- Witness for C8: two arbitrary distinct worlds, same outcome, no
query. -/
theorem claim_no_retry_witness :
    identify_run (some "12") none [] (fun _ => none) id ⟨false, "", none⟩ false []
        = identify_run (some "12") (some "t") ["a"] (fun o => o)
            (fun s => s) ⟨true, "x", none⟩ false []
      ∧ queriedFlag (identify_run (some "12") none [] (fun _ => none) id
          ⟨false, "", none⟩ false []) = false :=
  claim_no_retry (some "12") none (some "t") [] ["a"] (fun _ => none)
    (fun o => o) id (fun s => s) ⟨false, "", none⟩ ⟨true, "x", none⟩ false []
    (by decide)

/-- C4: `_parse_search_results` appends, in document order, the first
`bo3`-anchor href of each `ss_book_box` div to the match list; boxes
without such an anchor, and all other page elements, contribute
nothing. -/
theorem claim_parse_search_results (root : Html) (acc : List String) :
    parse_search_results root acc
      = acc ++ (search_boxes root).filterMap first_bo3_href := by
  unfold parse_search_results
  exact searchFold (search_boxes root) acc

/-- C3: with no valid ISBN, `_create_query` builds
`SEARCH_URL + '&SearchWord=' + '+'.join(tokens)` from the encoded
space-split tokens of the title followed by those of the first author only
(later authors are ignored); it returns `None` exactly when there are no
tokens — i.e. when the title is falsy and the author list empty — in which
case `identify` errors out with no HTTP request issued. -/
theorem claim_create_query (title : Option String) (authors : List String)
    (enc : String → String) (a0 : String) (rest1 rest2 : List String)
    (isbnRaw : Option String) (ci : Option String → Option String)
    (w : SearchWorld) (ab : Bool) (rs : List Round) :
    (create_query none title authors enc = none
        ↔ query_tokens title authors enc = [])
      ∧ (query_tokens title authors enc = []
        ↔ (strTruthy title = false ∧ authors = []))
      ∧ (query_tokens title authors enc ≠ [] →
          create_query none title authors enc
            = some (SEARCH_URL ++ "&SearchWord="
                ++ String.intercalate "+" (query_tokens title authors enc)))
      ∧ create_query none title (a0 :: rest1) enc
          = create_query none title (a0 :: rest2) enc
      ∧ SEARCH_URL = "http://www.aladin.co.kr/search/wsearchresult.aspx?SearchTarget=Book"
      ∧ (strTruthy isbnRaw = false →
          create_query (ci isbnRaw) title authors enc = none →
          identify_run isbnRaw title authors ci enc w ab rs = .insufficient
            ∧ queriedFlag (identify_run isbnRaw title authors ci enc w ab rs)
                = false) := by
  refine ⟨?_, ?_, ?_, rfl, rfl, ?_⟩
  · by_cases he : query_tokens title authors enc = []
    · simp [create_query, he]
    · simp [create_query, he, List.isEmpty_eq_true]
  · cases title with
    | none =>
        cases authors with
        | nil => simp [query_tokens, strTruthy]
        | cons a rest =>
            simp [query_tokens, strTruthy, List.map_eq_nil_iff,
              pySplitSpace_ne_nil]
    | some t =>
        cases ht : t.isEmpty
        · cases authors with
          | nil =>
              simp [query_tokens, strTruthy, ht, List.map_eq_nil_iff,
                pySplitSpace_ne_nil]
          | cons a rest =>
              simp [query_tokens, strTruthy, ht, List.map_eq_nil_iff,
                pySplitSpace_ne_nil]
        · cases authors with
          | nil => simp [query_tokens, strTruthy, ht]
          | cons a rest =>
              simp [query_tokens, strTruthy, ht, List.map_eq_nil_iff,
                pySplitSpace_ne_nil]
  · intro he
    simp [create_query, he, List.isEmpty_eq_true]
  · intro hisbn hq
    have hrun : identify_run isbnRaw title authors ci enc w ab rs
        = .insufficient := by
      simp [identify_run, hisbn, hq]
    exact ⟨hrun, by rw [hrun]; rfl⟩

/-- Witness for C3: a real title and author produce the concrete search
URL with the `'+'`-joined tokens of the title then the first author only;
and with no title, no authors and no ISBN, `identify` errors out with no
HTTP request. -/
theorem claim_create_query_witness :
    create_query none (some "t u") ["a b", "zz"] id
        = some (SEARCH_URL ++ "&SearchWord="
            ++ String.intercalate "+" (query_tokens (some "t u") ["a b", "zz"] id))
      ∧ create_query none (some "t u") ["a b", "zz"] id
        = some "http://www.aladin.co.kr/search/wsearchresult.aspx?SearchTarget=Book&SearchWord=t+u+a+b"
      ∧ create_query none (some "t u") ["a b", "zz"] id
        = create_query none (some "t u") ["a b"] id
      ∧ (identify_run none none [] (fun _ => none) id ⟨false, "", none⟩ false []
            = .insufficient
          ∧ queriedFlag (identify_run none none [] (fun _ => none) id
              ⟨false, "", none⟩ false []) = false) :=
  ⟨(claim_create_query (some "t u") ["a b", "zz"] id "a b" ["zz"] []
      none (fun _ => none) ⟨false, "", none⟩ false []).2.2.1 (by decide),
    by decide,
    (claim_create_query (some "t u") ["a b", "zz"] id "a b" ["zz"] []
      none (fun _ => none) ⟨false, "", none⟩ false []).2.2.2.1,
    (claim_create_query none [] id "x" [] ["y"] none (fun _ => none)
      ⟨false, "", none⟩ false []).2.2.2.2.2 (by decide) (by decide)⟩

/-- C2: each worker enqueues at most one record (`put` is an `Option`),
and it enqueues one iff the fetch succeeded, the body did not contain
`'HTTP 404.'`, the page parsed, and the title, the authors and an ISBN
extracted from the URL were all found (truthy); every error branch
enqueues nothing. -/
theorem claim_worker_enqueue_iff (pf : String → Option ℚ)
    (md : ℕ → ℕ → ℕ → Option PyDate) (ph : String → Option Html)
    (ca : String → String) (url : String) (rel : ℕ) (fetch : Fetch) :
    ((get_details pf md ph ca url rel fetch).put).isSome = true ↔
      ∃ raw root, fetch = Fetch.ok raw ∧ containsSub raw "HTTP 404." = false ∧
        ph (ca raw) = some root ∧ strTruthy (titleOf pf root) = true ∧
        (authorsOf root).isEmpty = false ∧ strTruthy (extract_isbn url) = true := by
  cases fetch with
  | err404 => simp [get_details, noOut]
  | errTimeout => simp [get_details, noOut]
  | errOther => simp [get_details, noOut]
  | ok raw =>
      cases hc : containsSub raw "HTTP 404."
      · cases hp : ph (ca raw) with
        | none => simp [get_details, hc, hp, noOut]
        | some root =>
            simp [get_details, hc, hp, parse_details_put_isSome]
      · simp [get_details, hc, noOut]

/-- C5 counterexample: on a page whose `og:url` content contains `'ISBN='`
but ends with its last `'='`, the enqueued record's isbn comes from the
detail-page URL, not from the `og:url` meta tag (whose derived value is
the empty string). -/
theorem claim_metadata_fields_counterexample :
    (parse_details pfW mdW urlB 0 pageB).put.map Metadata.isbn = some (some "123")
      ∧ containsSub ogB "ISBN=" = true
      ∧ ogIsbn pageB = some (afterLastEq ogB)
      ∧ afterLastEq ogB = ""
      ∧ (some "123" : Option String) ≠ some (afterLastEq ogB) := by
  refine ⟨by decide, by decide, by decide, by decide, by decide⟩

/-- C5 (amended): every enqueued record carries a (truthy) title and
authors, language `'ko'`, an isbn — from the `og:url` meta tag when that
URL contains `'ISBN='` AND the text after its last `'='` is non-empty,
otherwise from the detail-page URL — series and series_index only when a
series link was parsed, and publisher, pubdate, comments and the cover URL
exactly as the corresponding extractor produced them. -/
theorem claim_metadata_fields_amended (pf : String → Option ℚ)
    (md : ℕ → ℕ → ℕ → Option PyDate) (ph : String → Option Html)
    (ca : String → String) (url : String) (rel : ℕ) (fetch : Fetch)
    (mi : Metadata)
    (h : (get_details pf md ph ca url rel fetch).put = some mi) :
    mi.language = some "ko" ∧ mi.title ≠ "" ∧ mi.authors ≠ [] ∧
      ∃ raw root, fetch = Fetch.ok raw ∧ ph (ca raw) = some root ∧
        (∃ u, extract_isbn url = some u ∧ u ≠ "" ∧
          mi.isbn = some (match ogIsbn root with
            | some s => if s.isEmpty then u else s
            | none => u)) ∧
        (mi.series.isSome = true → (seriesOf pf root).isSome = true) ∧
        (mi.series_index.isSome = true → mi.series.isSome = true) ∧
        mi.publisher = publisherOf root ∧ mi.pubdate = pubdateOf md root ∧
        mi.comments = commentsOf root ∧ mi.cover_url = coverOf root ∧
        mi.has_cover = strTruthy (coverOf root) := by
  cases fetch with
  | err404 => simp [get_details, noOut] at h
  | errTimeout => simp [get_details, noOut] at h
  | errOther => simp [get_details, noOut] at h
  | ok raw =>
      cases hc : containsSub raw "HTTP 404."
      · cases hp : ph (ca raw) with
        | none => simp [get_details, hc, hp, noOut] at h
        | some root =>
            simp only [get_details, hc, Bool.false_eq_true, if_false, hp] at h
            have hsome : ((parse_details pf md url rel root).put).isSome = true := by
              rw [h]
              rfl
            obtain ⟨ht, ha, hi⟩ := (parse_details_put_isSome pf md url rel root).mp hsome
            have hmi := parse_details_put_eq pf md url rel root mi h
            subst hmi
            obtain ⟨ts, hts, htne⟩ := (strTruthy_iff _).mp ht
            obtain ⟨u, hu, hune⟩ := (strTruthy_iff _).mp hi
            refine ⟨rfl, ?_, ?_, raw, root, rfl, hp, ⟨u, hu, hune, ?_⟩,
              ?_, ?_, rfl, rfl, rfl, rfl, rfl⟩
            · simpa [hts] using htne
            · show authorsOf root ≠ []
              intro hEq
              rw [hEq] at ha
              simp at ha
            · simp [hu]
            · intro hss
              cases hstr : strTruthy (seriesOf pf root)
              · simp [hstr] at hss
              · obtain ⟨ss, hseq, _⟩ := (strTruthy_iff _).mp hstr
                simp [hseq]
            · intro hsi
              cases hstr : strTruthy (seriesOf pf root)
              · simp [hstr] at hsi
              · simp only [hstr, if_true]
                obtain ⟨ss, hseq, _⟩ := (strTruthy_iff _).mp hstr
                simp [hseq]
      · simp [get_details, hc, noOut] at h

/-- Witness for C5 (amended) at the concrete page `pageW`. -/
theorem claim_metadata_fields_amended_witness :
    miW.language = some "ko" ∧ miW.title ≠ "" := by
  have h : (get_details pfW mdW (fun _ => some pageW) (fun s => s) urlW 1
      (Fetch.ok "body")).put = some miW := by decide
  have hthm := claim_metadata_fields_amended pfW mdW (fun _ => some pageW)
    (fun s => s) urlW 1 (Fetch.ok "body") miW h
  exact ⟨hthm.1, hthm.2.1⟩

/-- C9: the `source_relevance` of every enqueued record equals the
worker's starting relevance — its index in the match list — plus 5 exactly
when `parse_cover` found a valid cover URL (the bump happens before
`source_relevance` is assigned); and the worker spawned for index `k`
indeed carries relevance `k`. -/
theorem claim_source_relevance (pf : String → Option ℚ)
    (md : ℕ → ℕ → ℕ → Option PyDate) (url : String) (root : Html)
    (mi : Metadata) (i : ℕ) (ms : List String) (k : ℕ)
    (h : (parse_details pf md url i root).put = some mi)
    (hk : k < ms.length) :
    mi.source_relevance = (if (coverOf root).isSome then i + 5 else i)
      ∧ (enumWorkers ms).getD k (0, "") = (k, ms.getD k "") := by
  refine ⟨?_, enumWorkers_getD ms k hk⟩
  have hmi := parse_details_put_eq pf md url i root mi h
  subst hmi
  cases hcov : coverOf root
  · simp [hcov]
  · simp [hcov]

/-- Witness for C9 on `pageW` at relevance 1: a valid cover bumps the
relevance to 6. -/
theorem claim_source_relevance_witness :
    miW.source_relevance = (if (coverOf pageW).isSome then 1 + 5 else 1)
      ∧ (enumWorkers ["http://a", "http://b"]).getD 1 (0, "") = (1, "http://b") := by
  have h : (parse_details pfW mdW urlW 1 pageW).put = some miW := by decide
  have hthm := claim_source_relevance pfW mdW urlW pageW miW 1
    ["http://a", "http://b"] 1 h (by decide)
  exact ⟨hthm.1, by simpa using hthm.2⟩

/-- C10: the isbn→cover-URL cache only gains entries whose URL does not
end in `'noimg_b.gif'`, and `get_cached_cover_url` returns `None` when the
`'isbn'` identifier is not truthy or the isbn has no cached entry. -/
theorem claim_cover_cache_invariant (pf : String → Option ℚ)
    (md : ℕ → ℕ → ℕ → Option PyDate) (ph : String → Option Html)
    (ca : String → String) (url : String) (rel : ℕ) (fetch : Fetch)
    (cache : String → Option String) (s : String) :
    (∀ p ∈ (get_details pf md ph ca url rel fetch).cacheAdds,
        pyEndsWith p.2 "noimg_b.gif" = false)
      ∧ (∀ idIsbn, strTruthy idIsbn = false →
          get_cached_cover_url cache idIsbn = none)
      ∧ (cache s = none → get_cached_cover_url cache (some s) = none) := by
  refine ⟨?_, ?_, ?_⟩
  · cases fetch with
    | err404 => simp [get_details, noOut]
    | errTimeout => simp [get_details, noOut]
    | errOther => simp [get_details, noOut]
    | ok raw =>
        cases hc : containsSub raw "HTTP 404."
        · cases hp : ph (ca raw) with
          | none => simp [get_details, hc, hp, noOut]
          | some root =>
              simp only [get_details, hc, Bool.false_eq_true, if_false, hp]
              exact parse_details_cacheAdds pf md url rel root
        · simp [get_details, hc, noOut]
  · intro idIsbn h
    cases idIsbn with
    | none => rfl
    | some t =>
        cases ht : t.isEmpty
        · rw [strTruthy] at h
          rw [ht] at h
          simp at h
        · simp [get_cached_cover_url, ht]
  · intro hcache
    cases he : s.isEmpty
    · simp [get_cached_cover_url, he, hcache]
    · simp [get_cached_cover_url, he]

/-- Witness for C10: the worker on `pageB` (no `og:image`) caches nothing,
and lookups with a falsy or unknown isbn miss. -/
theorem claim_cover_cache_invariant_witness :
    (∀ p ∈ (get_details pfW mdW (fun _ => some pageB) (fun s => s) urlB 0
        (Fetch.ok "body")).cacheAdds, pyEndsWith p.2 "noimg_b.gif" = false)
      ∧ get_cached_cover_url cacheW none = none
      ∧ get_cached_cover_url cacheW (some "77") = none := by
  have hthm := claim_cover_cache_invariant pfW mdW (fun _ => some pageB)
    (fun s => s) urlB 0 (Fetch.ok "body") cacheW "77"
  exact ⟨hthm.1, hthm.2.1 none (by decide), hthm.2.2 (by decide)⟩

/-- C6: `identify` spawns exactly one worker per match URL with relevance
equal to the URL's index, polls joins at 0.2 seconds, and its join loop
(i) on a non-abort exit has just observed every worker dead — it never
returns while a worker is alive unless abort is set — (ii) on an abort
exit some poll of its final round observed abort, and (iii) with the
abort event monotone, it consumes at most one further round once abort is
observed. -/
theorem claim_worker_fanout_join (ms : List String) (rs : List Round) :
    (enumWorkers ms).length = ms.length
      ∧ (∀ i, i < ms.length → (enumWorkers ms).getD i (0, "") = (i, ms.getD i ""))
      ∧ joinPollSeconds = 1 / 5
      ∧ ((joinLoop rs).1 = .allDead →
          ∃ i, i < rs.length ∧ (joinLoop rs).2 = i + 1 ∧
            (rs.getD i d0).atTop = false ∧
            ∀ p ∈ (rs.getD i d0).obs, p.1 = false ∧ p.2 = false)
      ∧ ((joinLoop rs).1 = .aborted →
          ∃ i, i < rs.length ∧ (joinLoop rs).2 = i + 1 ∧
            abortObserved (rs.getD i d0) = true)
      ∧ (MonoAbort rs → ∀ i, i < rs.length →
          abortObserved (rs.getD i d0) = true → (joinLoop rs).2 ≤ i + 2) :=
  ⟨enumWorkers_length ms, fun i hi => enumWorkers_getD ms i hi,
    by norm_num [joinPollSeconds], joinLoop_allDead rs, joinLoop_aborted rs,
    joinLoop_prompt rs⟩

/-- Witness for C6: a two-URL fan-out, and a trace whose first round
observes abort at the top. -/
theorem claim_worker_fanout_join_witness :
    (enumWorkers ["http://a", "http://b"]).getD 1 (0, "")
        = (1, (["http://a", "http://b"] : List String).getD 1 "")
      ∧ (joinLoop [(⟨true, []⟩ : Round)]).2 ≤ 0 + 2 := by
  have hmono : MonoAbort [(⟨true, []⟩ : Round)] := by
    intro i hi
    simp at hi
  exact ⟨(claim_worker_fanout_join ["http://a", "http://b"] [⟨true, []⟩]).2.1 1
      (by decide),
    (claim_worker_fanout_join ["http://a", "http://b"] [⟨true, []⟩]).2.2.2.2.2
      hmono 0 (by decide) (by decide)⟩

/-- C7: `download_cover` consults the isbn-keyed cover cache first (a hit
skips `identify`); on a miss it runs `identify`, sorts the drained records
by the host's keygen and takes the first cached cover URL; with no cover
URL, or abort set, nothing is enqueued, otherwise the download result is
enqueued and a failed download enqueues nothing. -/
theorem claim_download_cover {β : Type} (cache : String → Option String)
    (idIsbn : Option String) (ab1 ab2 : Bool) (results : List Metadata)
    (keygen : Metadata → ℕ) (dl : String → Option β) :
    (∀ u, get_cached_cover_url cache idIsbn = some u →
        download_cover cache idIsbn ab1 ab2 results keygen dl
          = (finishDownload ab2 dl u, false))
      ∧ (get_cached_cover_url cache idIsbn = none → ab1 = true →
          download_cover cache idIsbn ab1 ab2 results keygen dl = (none, true))
      ∧ (get_cached_cover_url cache idIsbn = none → ab1 = false →
          (sortByKey keygen results).findSome?
              (fun mi => get_cached_cover_url cache mi.isbn) = none →
          download_cover cache idIsbn ab1 ab2 results keygen dl = (none, true))
      ∧ (∀ u, get_cached_cover_url cache idIsbn = none → ab1 = false →
          (sortByKey keygen results).findSome?
              (fun mi => get_cached_cover_url cache mi.isbn) = some u →
          download_cover cache idIsbn ab1 ab2 results keygen dl
            = (finishDownload ab2 dl u, true))
      ∧ (∀ u, finishDownload true dl u = none)
      ∧ (∀ u, finishDownload false dl u = dl u)
      ∧ (sortByKey keygen results).Perm results
      ∧ List.Sorted (fun a b => keygen a ≤ keygen b) (sortByKey keygen results) := by
  refine ⟨?_, ?_, ?_, ?_, ?_, ?_, ?_, ?_⟩
  · intro u hu
    simp [download_cover, hu]
  · intro hu hab
    simp [download_cover, hu, hab]
  · intro hu hab hf
    simp [download_cover, hu, hab, hf]
  · intro u hu hab hf
    simp [download_cover, hu, hab, hf]
  · intro u
    simp [finishDownload]
  · intro u
    simp [finishDownload]
  · exact List.perm_insertionSort _ results
  · haveI : IsTotal Metadata (fun a b => keygen a ≤ keygen b) :=
      ⟨fun a b => Nat.le_total (keygen a) (keygen b)⟩
    haveI : IsTrans Metadata (fun a b => keygen a ≤ keygen b) :=
      ⟨fun _ _ _ hab hbc => Nat.le_trans hab hbc⟩
    exact List.sorted_insertionSort _ results

/-- Witness for C7: a cache hit downloads without running `identify`. -/
theorem claim_download_cover_witness :
    download_cover cacheW (some "9788983920683") false false [] (fun _ => 0)
        (fun _ => some 42) = (some 42, false) := by
  have h := (claim_download_cover (β := ℕ) cacheW (some "9788983920683") false
      false [] (fun _ => 0) (fun _ => some 42)).1
    "http://image.aladin.co.kr/8983920688_f.jpg" (by decide)
  rw [h]
  rfl

end Aladin
